import Mathlib

/-!
Verification of the Bronze→Silver aggregation engine of the `piscraper`
repository (`src/silver_layer/aggregator.py`, class `SilverAggregator`).

The Python code is shallowly embedded: database rows become Lean structures,
timestamps become integers (minutes since an epoch, via a standard
civil-calendar conversion), JSON payloads become association lists of a small
Python-value type, and the database tables become Lean lists.  Python's
per-process salted string hash (`hash(...)`) is modelled as an explicit
parameter `pyhash : String → Nat` of the functions that call it.
-/

namespace Piscraper

/-! ### Structural string helpers

Python's `str.split`, `str.strip`, `str.lower`, `str.upper` and `'|'.join`
are re-implemented by structural recursion on character lists so that every
definition evaluates by kernel reduction. -/

/-- Is `sep` a prefix of `cs`? -/
def isPrefixChars : List Char → List Char → Bool
  | [], _ => true
  | _ :: _, [] => false
  | a :: as, b :: bs => a = b && isPrefixChars as bs

/-- Fuel-indexed worker for splitting on a (non-empty) separator sequence,
scanning left to right without overlap, exactly like Python's `s.split(sep)`
and Lean's `String.splitOn`. -/
def splitSepAux (sep : List Char) : Nat → List Char → List Char → List (List Char)
  | _, [], acc => [acc.reverse]
  | 0, cs, acc => [acc.reverse ++ cs]
  | fuel + 1, c :: rest, acc =>
      if isPrefixChars sep (c :: rest) then
        acc.reverse :: splitSepAux sep fuel ((c :: rest).drop sep.length) []
      else splitSepAux sep fuel rest (c :: acc)

/-- Python's `s.split(sep)` for a non-empty separator. -/
def pySplit (sep s : String) : List String :=
  (splitSepAux sep.data s.data.length s.data []).map String.mk

/-- Splitting on whitespace runs with empty pieces dropped, as needed to
model `\s+` in a regex search. -/
def splitWsAux : List Char → List Char → List (List Char)
  | [], acc => [acc.reverse]
  | c :: rest, acc =>
      if c.isWhitespace then acc.reverse :: splitWsAux rest []
      else splitWsAux rest (c :: acc)

def pySplitWs (s : String) : List String :=
  ((splitWsAux s.data []).map String.mk).filter (fun t => t ≠ "")

/-- Python's `s.strip()`: remove leading and trailing whitespace. -/
def pyTrim (s : String) : String :=
  String.mk (((s.data.dropWhile Char.isWhitespace).reverse.dropWhile
    Char.isWhitespace).reverse)

/-- ASCII case folding (the scraped payloads are ASCII). -/
def asciiLowerChar (c : Char) : Char :=
  if 65 ≤ c.toNat ∧ c.toNat ≤ 90 then Char.ofNat (c.toNat + 32) else c

def asciiUpperChar (c : Char) : Char :=
  if 97 ≤ c.toNat ∧ c.toNat ≤ 122 then Char.ofNat (c.toNat - 32) else c

def pyLower (s : String) : String :=
  String.mk (s.data.map asciiLowerChar)

def pyUpper (s : String) : String :=
  String.mk (s.data.map asciiUpperChar)

/-- `sep.join(xs)` / `String.intercalate`. -/
def joinSep (sep : String) : List String → String
  | [] => ""
  | x :: rest => rest.foldl (fun a b => a ++ sep ++ b) x

/-- A JSON value as it appears in the scrapers' raw payloads: the payload
dictionaries written by `db_utils.as_rows` contain strings and lists of
strings. -/
inductive PyVal where
  | s (v : String)
  | list (vs : List String)
  deriving DecidableEq, Repr

/-- Python truthiness for a payload value: the empty string and the empty
list are falsy. -/
def pyTruthy : PyVal → Bool
  | .s v => v ≠ ""
  | .list vs => !vs.isEmpty

/-- `str(value)` for a payload value; Python renders a list of strings as
`['a', 'b']`. -/
def pyStr : PyVal → String
  | .s v => v
  | .list vs => "[" ++ joinSep ", " (vs.map (fun v => "'" ++ v ++ "'")) ++ "]"

/-- A row of `schedule_snapshots` joined with `scrape_runs`, as read by
`get_new_bronze_data`.  The `raw` column is `JSONB NOT NULL` and is written by
`db_utils.as_rows` as `json.dumps(item)` of a dictionary, so it is embedded as
an association list. -/
structure BronzeRecord where
  id : Int
  run_id : String
  source : String
  item_uid : Option String
  class_name : Option String
  instructor : Option String
  location : Option String
  start_ts : Option Int
  end_ts : Option Int
  capacity : Option Int
  spots_available : Option Int
  status : Option String
  url : Option String
  scraped_at : Int
  raw : List (String × PyVal)
  deriving DecidableEq, Repr

/-- `raw_data.get(key)` on the parsed raw payload. -/
def rawLookup (raw : List (String × PyVal)) (k : String) : Option PyVal :=
  (raw.find? (fun p => p.1 = k)).map (fun p => p.2)

/-- `record.get(key)` for the keys that `generate_class_id` may ask of the
bronze row itself; keys that are not columns of the row yield `None`.
Timestamps are rendered with `toString`, standing for Python's `str(datetime)`
(only determinism of the rendering matters here). -/
def recordGet (r : BronzeRecord) (k : String) : Option PyVal :=
  if k = "class_name" then r.class_name.map PyVal.s
  else if k = "location" then r.location.map PyVal.s
  else if k = "instructor" then r.instructor.map PyVal.s
  else if k = "start_ts" then r.start_ts.map (fun t => PyVal.s (toString t))
  else none

/-- The per-source key sets of `generate_class_id`
(`aggregator.py` lines 272-282). -/
def class_id_keys (source : String) : List String :=
  if source = "coolcharm" then ["date", "time", "class_name", "location"]
  else if source = "koepel" then ["date", "time", "instructor", "description"]
  else if source = "rite" then ["name", "date", "hour", "address", "instructor"]
  else if source = "rowreformer" then ["week_day", "details"]
  else ["class_name", "start_ts", "location"]

/-- `raw_data.get(key) or record.get(key) or 'unknown'` followed by
`str(value).lower().strip()` (`aggregator.py` lines 287-290). -/
def keyValue (r : BronzeRecord) (k : String) : String :=
  let v : PyVal :=
    match rawLookup r.raw k with
    | some w => if pyTruthy w then w else
        (match recordGet r k with
         | some w2 => if pyTruthy w2 then w2 else PyVal.s "unknown"
         | none => PyVal.s "unknown")
    | none =>
        (match recordGet r k with
         | some w2 => if pyTruthy w2 then w2 else PyVal.s "unknown"
         | none => PyVal.s "unknown")
  pyTrim (pyLower (pyStr v))

/-- The joined key string `'|'.join(key_values)` of `generate_class_id`. -/
def key_string (r : BronzeRecord) : String :=
  joinSep "|" ((class_id_keys r.source).map (keyValue r))

/-- The `%012d` rendering of a natural number below `10^12`: exactly twelve
decimal digits, most significant first. -/
def digits12 (n : Nat) : String :=
  String.mk ((List.range 12).map (fun i => Char.ofNat (48 + n / 10 ^ (11 - i) % 10)))

/-- `generate_class_id` (`aggregator.py` lines 267-296; the copy in
`silver_aggregation.py` lines 85-114 is textually identical).  `pyhash` stands
for the Python interpreter's built-in `hash` on strings, which is salted per
process by `PYTHONHASHSEED`. -/
def generate_class_id (pyhash : String → Nat) (r : BronzeRecord) : String :=
  r.source ++ ":" ++ digits12 (pyhash (key_string r) % 10 ^ 12)

theorem digits12_length (n : Nat) : (digits12 n).length = 12 := by
  simp [digits12, String.length]

theorem digits12_data_length (n : Nat) : (digits12 n).data.length = 12 := by
  simp [digits12]

/-- Two records that receive the same class id have the same source: the id is
the source followed by `':'` and exactly twelve digits. -/
theorem generate_class_id_source_inj (pyhash : String → Nat) (r1 r2 : BronzeRecord)
    (h : generate_class_id pyhash r1 = generate_class_id pyhash r2) :
    r1.source = r2.source := by
  unfold generate_class_id at h
  have hd := congrArg String.data h
  simp only [String.data_append] at hd
  have h12 : ((digits12 (pyhash (key_string r1) % 10 ^ 12)).data).length
      = ((digits12 (pyhash (key_string r2) % 10 ^ 12)).data).length := by
    rw [digits12_data_length, digits12_data_length]
  rw [List.append_assoc, List.append_assoc] at hd
  have hlen : (String.data ":" ++ (digits12 (pyhash (key_string r1) % 10 ^ 12)).data).length
      = (String.data ":" ++ (digits12 (pyhash (key_string r2) % 10 ^ 12)).data).length := by
    simp [h12, digits12_length]
  have := (List.append_inj' hd hlen).1
  cases hr1 : r1.source with
  | mk l1 =>
      cases hr2 : r2.source with
      | mk l2 =>
          rw [hr1, hr2] at this
          simpa using congrArg String.mk this

/-! ### Date/time parsing helpers used by `enhance_record_with_raw_data`

Timestamps are minutes since the Unix epoch; `daysFromCivil` is the standard
civil-calendar day count, so `datetime(y, m, d, hh, mi)` is embedded as
`mkTs y m d hh mi`. -/

/-- Leap-year rule of the proleptic Gregorian calendar. -/
def isLeap (y : Nat) : Bool :=
  (y % 4 = 0 && y % 100 ≠ 0) || y % 400 = 0

def daysInMonth (y mo : Nat) : Nat :=
  if mo = 2 then (if isLeap y then 29 else 28)
  else if mo = 4 || mo = 6 || mo = 9 || mo = 11 then 30
  else 31

/-- The dates accepted by Python's `datetime(y, m, d)` constructor (year at
least 1, month 1-12, day within the month). -/
def validDate (y mo d : Nat) : Bool :=
  1 ≤ y && 1 ≤ mo && mo ≤ 12 && 1 ≤ d && d ≤ daysInMonth y mo

/-- Days since 1970-01-01 of a civil date (Gregorian, `y ≥ 1`). -/
def daysFromCivil (y mo d : Nat) : Int :=
  let y2 := if mo ≤ 2 then y - 1 else y
  let era := y2 / 400
  let yoe := y2 % 400
  let mp := (mo + 9) % 12
  let doy := (153 * mp + 2) / 5 + d - 1
  let doe := yoe * 365 + yoe / 4 - yoe / 100 + doy
  ((era * 146097 + doe : Nat) : Int) - 719468

/-- `datetime(y, mo, d, hh, mi)` as minutes since the epoch, with the
hour/minute given as integers (they come from Python's `int(...)`). -/
def mkTsI (y mo d : Nat) (hh mi : Int) : Int :=
  daysFromCivil y mo d * 1440 + hh * 60 + mi

def mkTs (y mo d hh mi : Nat) : Int :=
  mkTsI y mo d hh mi

/-- A non-empty all-digit character list read as a natural number. -/
def digitsToNat (cs : List Char) : Option Nat :=
  if cs ≠ [] ∧ cs.all Char.isDigit then
    some (cs.foldl (fun a c => a * 10 + (c.toNat - 48)) 0)
  else none

/-- A `strptime`-style numeric field of between `lo` and `hi` digits. -/
def fixedDigits (lo hi : Nat) (s : String) : Option Nat :=
  if lo ≤ s.length ∧ s.length ≤ hi then digitsToNat s.data else none

/-- Python's `int(...)` on a string: optional surrounding whitespace, an
optional sign, then decimal digits; anything else raises `ValueError`
(modelled as `none`). -/
def pyInt (s : String) : Option Int :=
  match (pyTrim s).data with
  | '-' :: rest => (digitsToNat rest).map (fun n => -(n : Int))
  | '+' :: rest => (digitsToNat rest).map (fun n => (n : Int))
  | cs => (digitsToNat cs).map (fun n => (n : Int))

/-- `datetime.strptime(s, "%d/%m/%Y")`: day/month of 1-2 digits, year of 1-4
digits, validated as a real date. -/
def parseDMY (s : String) : Option (Nat × Nat × Nat) :=
  match pySplit "/" s with
  | [a, b, c] => do
      let d ← fixedDigits 1 2 a
      let mo ← fixedDigits 1 2 b
      let y ← fixedDigits 1 4 c
      if validDate y mo d then some (y, mo, d) else none
  | _ => none

/-- `map(int, t.split(':'))` unpacked into exactly two integers
(`ValueError` on any other shape, modelled as `none`). -/
def parseHM (t : String) : Option (Int × Int) :=
  match pySplit ":" t with
  | [a, b] =>
      match pyInt a, pyInt b with
      | some x, some y => some (x, y)
      | _, _ => none
  | _ => none

/-- The shared coolcharm/koepel time handling: split the time string on
`" - "` into exactly two `H:M` pieces and build both datetimes with
`date_obj.replace(hour=.., minute=..)`, which validates the ranges
(`aggregator.py` lines 135-142 and 236-243). -/
def parseTimeRange (y mo d : Nat) (ts : String) : Option (Int × Int) :=
  match pySplit " - " ts with
  | [t1, t2] =>
      match parseHM t1, parseHM t2 with
      | some (h1, m1), some (h2, m2) =>
          if 0 ≤ h1 ∧ h1 ≤ 23 ∧ 0 ≤ m1 ∧ m1 ≤ 59 ∧ 0 ≤ h2 ∧ h2 ≤ 23 ∧ 0 ≤ m2 ∧ m2 ≤ 59 then
            some (mkTsI y mo d h1 m1, mkTsI y mo d h2 m2)
          else none
      | _, _ => none
  | _ => none

def isWordChar (c : Char) : Bool :=
  c.isAlphanum || c = '_'

/-- The leading `\w+` run of a token. -/
def wordRun (s : String) : String :=
  String.mk (s.data.takeWhile isWordChar)

def isDayToken (t : String) : Bool :=
  decide (1 ≤ t.length) && decide (t.length ≤ 2) && t.data.all Char.isDigit

def natOfDigits (t : String) : Nat :=
  t.data.foldl (fun a c => a * 10 + (c.toNat - 48)) 0

/-- `re.search(r'(\d{1,2})\s+(\w+)', s)`, modelled on whitespace-separated
tokens: the first token of 1-2 digits that is followed by a token with a
non-empty leading word-character run yields the two groups. -/
def findDayMonthTokens : List String → Option (Nat × String)
  | t1 :: t2 :: rest =>
      if isDayToken t1 && wordRun t2 ≠ "" then some (natOfDigits t1, wordRun t2)
      else findDayMonthTokens (t2 :: rest)
  | _ => none

def findDayMonth (s : String) : Option (Nat × String) :=
  findDayMonthTokens (pySplitWs s)

/-- The English month-name table of the coolcharm branch
(`aggregator.py` lines 123-127). -/
def englishMonth (m : String) : Option Nat :=
  if m = "JANUARY" then some 1 else if m = "FEBRUARY" then some 2
  else if m = "MARCH" then some 3 else if m = "APRIL" then some 4
  else if m = "MAY" then some 5 else if m = "JUNE" then some 6
  else if m = "JULY" then some 7 else if m = "AUGUST" then some 8
  else if m = "SEPTEMBER" then some 9 else if m = "OCTOBER" then some 10
  else if m = "NOVEMBER" then some 11 else if m = "DECEMBER" then some 12
  else none

/-- The Dutch month-name table of the koepel branch
(`aggregator.py` lines 226-230). -/
def dutchMonth (m : String) : Option Nat :=
  if m = "januari" then some 1 else if m = "februari" then some 2
  else if m = "maart" then some 3 else if m = "april" then some 4
  else if m = "mei" then some 5 else if m = "juni" then some 6
  else if m = "juli" then some 7 else if m = "augustus" then some 8
  else if m = "september" then some 9 else if m = "oktober" then some 10
  else if m = "november" then some 11 else if m = "december" then some 12
  else none

/-- strptime `"%I:%M %p"`: 12-hour time with AM/PM, converted to 24-hour. -/
def parse12 (t : String) : Option (Nat × Nat) :=
  match pySplit " " t with
  | [hm, ap] =>
      match pySplit ":" hm with
      | [hs, ms] => do
          let h ← fixedDigits 1 2 hs
          let m ← fixedDigits 1 2 ms
          if 1 ≤ h ∧ h ≤ 12 ∧ m ≤ 59 then
            let apu := pyUpper ap
            if apu = "AM" then some (h % 12, m)
            else if apu = "PM" then some (h % 12 + 12, m)
            else none
          else none
      | _ => none
  | _ => none

/-- strptime `"%H:%M"`: 24-hour time. -/
def parse24 (t : String) : Option (Nat × Nat) :=
  match pySplit ":" t with
  | [hs, ms] => do
      let h ← fixedDigits 1 2 hs
      let m ← fixedDigits 1 2 ms
      if h ≤ 23 ∧ m ≤ 59 then some (h, m) else none
  | _ => none

/-- The rowreformer time parse: 12-hour format first, then 24-hour
(`aggregator.py` lines 176-184). -/
def parse12or24 (t : String) : Option (Nat × Nat) :=
  match parse12 t with
  | some r => some r
  | none => parse24 t

/-! ### `enhance_record_with_raw_data` (`aggregator.py` lines 85-265)

Each per-source block is embedded separately.  A block that lets an exception
escape its local `except` clause reaches the outer `except Exception` of the
function, which returns the record as mutated so far and skips the remaining
blocks of that branch; blocks where this can happen return an abort flag. -/

/-- Truthiness of `raw_data.get(k)`. -/
def truthyAt (r : BronzeRecord) (k : String) : Bool :=
  match rawLookup r.raw k with
  | some v => pyTruthy v
  | none => false

/-- Python falsiness of the `capacity` column (`not enhanced.get('capacity')`):
`None` and `0` are falsy. -/
def pyFalsyCap : Option Int → Bool
  | none => true
  | some n => n == 0

/-- `len`/indexing view of a payload value: a list yields its elements, a
string yields its characters (Python strings are sequences), used for the
rowreformer `details` field. -/
def pyElems : PyVal → List String
  | .list l => l
  | .s v => v.data.map (fun c => String.mk [c])

/-- Coolcharm date parse: `strptime("%d/%m/%Y")`, falling back to the
`"SATURDAY 21 JUNE"` regex path with the English month table and an assumed
year 2025; a `datetime` validation failure leaves `date_obj = None`
(`aggregator.py` lines 106-133). -/
def ccParseDate (ds : String) : Option (Nat × Nat × Nat) :=
  match parseDMY ds with
  | some ymd => some ymd
  | none =>
      match findDayMonth ds with
      | some (day, w) =>
          match englishMonth (pyUpper w) with
          | some mo => if validDate 2025 mo day then some (2025, mo, day) else none
          | none => none
      | none => none

/-- Outcome of a temporal block: update both timestamps, do nothing, or let
an exception escape to the function-level `except Exception` handler. -/
inductive TempRes where
  | upd (st en : Int)
  | skip
  | abort
  deriving DecidableEq, Repr

/-- Apply a temporal outcome to the record; the second component is the
abort flag. -/
def applyTempRes (r : BronzeRecord) : TempRes → BronzeRecord × Bool
  | .upd st en => ({ r with start_ts := some st, end_ts := some en }, false)
  | .skip => (r, false)
  | .abort => (r, true)

/-- Outcome of a capacity block: both assignments, only the `capacity`
assignment (when `int(spots)` then fails), or nothing. -/
inductive CapRes where
  | both (c sp : Int)
  | onlyCap (c : Int)
  | skip
  deriving DecidableEq, Repr

def applyCapRes (r : BronzeRecord) : CapRes → BronzeRecord
  | .both c sp => { r with capacity := some c, spots_available := some sp }
  | .onlyCap c => { r with capacity := some c }
  | .skip => r

/-- The common `avail.split(sep)` / `int(capacity)` / `int(spots)` sequence of
the three capacity blocks, with `capacity` assigned before `spots_available`
(`aggregator.py` lines 153-156, 201-205, 253-257). -/
def splitCapacity (sep avail : String) : CapRes :=
  match pySplit sep avail with
  | [sp, cap] =>
      match pyInt cap with
      | some c =>
          match pyInt sp with
          | some s2 => .both c s2
          | none => .onlyCap c
      | none => .skip
  | _ => .skip

/-- Coolcharm temporal block decision (`aggregator.py` lines 101-147).
Aborts when the date parsed but `raw_data['time']` is a list containing the
element `" - "`: `time_str.split(' - ')` then raises `AttributeError`, which
the local `except (ValueError, KeyError, TypeError)` does not catch. -/
def ccTemporalRes (r : BronzeRecord) : TempRes :=
  if r.start_ts = none ∧ truthyAt r "date" ∧ truthyAt r "time" then
    match rawLookup r.raw "date", rawLookup r.raw "time" with
    | some (PyVal.s ds), some tv =>
        match ccParseDate ds with
        | none => .skip
        | some (y, mo, d) =>
            match tv with
            | PyVal.s ts =>
                match parseTimeRange y mo d ts with
                | some (st, en) => .upd st en
                | none => .skip
            | PyVal.list l => (if " - " ∈ l then .abort else .skip)
    | _, _ => .skip
  else .skip

def ccTemporal (r : BronzeRecord) : BronzeRecord × Bool :=
  applyTempRes r (ccTemporalRes r)

/-- Coolcharm capacity block (`aggregator.py` lines 150-158): the guard tests
only the truthiness of `capacity`. -/
def ccCapacity (r : BronzeRecord) : BronzeRecord :=
  if pyFalsyCap r.capacity ∧ truthyAt r "availability" then
    match rawLookup r.raw "availability" with
    | some (PyVal.s avail) => applyCapRes r (splitCapacity " / " avail)
    | _ => r
  else r

def coolcharmBranch (r : BronzeRecord) : BronzeRecord :=
  if (ccTemporal r).2 then (ccTemporal r).1 else ccCapacity (ccTemporal r).1

/-- Rowreformer temporal block decision (`aggregator.py` lines 162-194).
Aborts when a non-string `raw_data['date']` reaches `strptime`, which raises
`TypeError`; the local `except (ValueError, KeyError, IndexError)` does not
catch it. -/
def rrTemporalRes (r : BronzeRecord) : TempRes :=
  if r.start_ts = none ∧ truthyAt r "date" then
    if 1 < (pyElems ((rawLookup r.raw "details").getD (PyVal.list []))).length then
      match (pyElems ((rawLookup r.raw "details").getD (PyVal.list []))).get? 1 with
      | some t1 =>
          match rawLookup r.raw "date" with
          | some (PyVal.s ds) =>
              (match parseDMY ds, parse12or24 t1 with
               | some (y, mo, d), some (h, mi) =>
                   .upd (mkTs y mo d h mi) (mkTs y mo d h mi + 50)
               | _, _ => .skip)
          | some (PyVal.list _) => .abort
          | none => .skip
      | none => .skip
    else .skip
  else .skip

def rrTemporal (r : BronzeRecord) : BronzeRecord × Bool :=
  applyTempRes r (rrTemporalRes r)

/-- Rowreformer capacity block (`aggregator.py` lines 197-207): positional
field 5 of `details`, split on `"/"`. -/
def rrCapacity (r : BronzeRecord) : BronzeRecord :=
  if pyFalsyCap r.capacity then
    if 5 < (pyElems ((rawLookup r.raw "details").getD (PyVal.list []))).length then
      match (pyElems ((rawLookup r.raw "details").getD (PyVal.list []))).get? 5 with
      | some avail => applyCapRes r (splitCapacity "/" avail)
      | none => r
    else r
  else r

def rowreformerBranch (r : BronzeRecord) : BronzeRecord :=
  if (rrTemporal r).2 then (rrTemporal r).1 else rrCapacity (rrTemporal r).1

/-- Koepel temporal block decision (`aggregator.py` lines 213-248): Dutch
date regex, month table, assumed year 2025; its `except` clause also catches
`AttributeError`, so this block never aborts. -/
def kpTemporalRes (r : BronzeRecord) : TempRes :=
  if r.start_ts = none ∧ truthyAt r "date" ∧ truthyAt r "time" then
    match rawLookup r.raw "date", rawLookup r.raw "time" with
    | some (PyVal.s ds), some (PyVal.s ts) =>
        match findDayMonth ds with
        | some (day, w) =>
            -- `if match and ' - ' in time_str:`
            if (pySplit " - " ts).length > 1 then
              match dutchMonth (pyLower w) with
              | some mo =>
                  if validDate 2025 mo day then
                    match parseTimeRange 2025 mo day ts with
                    | some (st, en) => .upd st en
                    | none => .skip
                  else .skip
              | none => .skip
            else .skip
        | none => .skip
    | _, _ => .skip
  else .skip

def kpTemporal (r : BronzeRecord) : BronzeRecord :=
  (applyTempRes r (kpTemporalRes r)).1

/-- Koepel capacity block (`aggregator.py` lines 251-259): the `"3 / 4"`
string lives under the raw key `capacity`. -/
def kpCapacity (r : BronzeRecord) : BronzeRecord :=
  if pyFalsyCap r.capacity ∧ truthyAt r "capacity" then
    match rawLookup r.raw "capacity" with
    | some (PyVal.s avail) => applyCapRes r (splitCapacity " / " avail)
    | _ => r
  else r

def koepelBranch (r : BronzeRecord) : BronzeRecord :=
  kpCapacity (kpTemporal r)

/-- `enhance_record_with_raw_data` (`aggregator.py` lines 85-265).  The `raw`
column is always a JSON object (see `BronzeRecord.raw`), so the non-dict early
return is unreachable; sources without a branch (e.g. `rite`) are returned
unchanged. -/
def enhance_record_with_raw_data (r : BronzeRecord) : BronzeRecord :=
  if r.source = "coolcharm" then coolcharmBranch r
  else if r.source = "rowreformer" then rowreformerBranch r
  else if r.source = "koepel" then koepelBranch r
  else r

/-! ### The silver table and the incremental merge engine -/

/-- A row of `silver_classes` (`create_silver_schema`, `aggregator.py`
lines 37-61). -/
structure SilverRecord where
  class_id : String
  source : String
  class_name : Option String
  instructor : Option String
  location : Option String
  start_ts : Option Int
  end_ts : Option Int
  capacity : Option Int
  spots_available : Option Int
  status : Option String
  url : Option String
  first_seen_at : Int
  last_updated_at : Int
  last_scraped_at : Int
  is_cancelled : Bool
  is_past : Bool
  source_run_id : Option String
  source_snapshot_id : Option Int
  raw_data : List (String × PyVal)
  deriving DecidableEq, Repr

/-- A row of `silver_aggregation_log` as inserted by `log_aggregation_run`
(which always fills `completed_at` with `NOW()`). -/
structure LogEntry where
  run_id : String
  source : String
  completed_at : Int
  records_processed : Int
  records_inserted : Int
  records_updated : Int
  records_cancelled : Int
  status : String
  error_message : Option String
  deriving DecidableEq, Repr

/-- The run statistics dictionary of `process_incremental_update`. -/
structure Stats where
  processed : Nat
  inserted : Nat
  updated : Nat
  cancelled : Nat
  deriving DecidableEq, Repr

/-- `get_existing_silver_record` (`aggregator.py` lines 400-404):
`SELECT * FROM silver_classes WHERE class_id = %s` on a primary key. -/
def get_existing_silver_record (table : List SilverRecord) (cid : String) :
    Option SilverRecord :=
  table.find? (fun s => s.class_id = cid)

/-- `insert_silver_record` (`aggregator.py` lines 406-437); `first_seen_at`,
`last_updated_at` and `is_cancelled` take their column defaults (`NOW()`,
`NOW()`, `FALSE`). -/
def insert_silver_record (table : List SilverRecord) (cid : String)
    (r : BronzeRecord) (is_past : Bool) (now : Int) : List SilverRecord :=
  table ++ [{ class_id := cid
              source := r.source
              class_name := r.class_name
              instructor := r.instructor
              location := r.location
              start_ts := r.start_ts
              end_ts := r.end_ts
              capacity := r.capacity
              spots_available := r.spots_available
              status := r.status
              url := r.url
              first_seen_at := now
              last_updated_at := now
              last_scraped_at := r.scraped_at
              is_cancelled := false
              is_past := is_past
              source_run_id := some r.run_id
              source_snapshot_id := some r.id
              raw_data := r.raw }]

/-- The field assignments of the `UPDATE silver_classes SET ...` statement of
`update_silver_record` (`aggregator.py` lines 447-482): every mutable field is
overwritten, `last_updated_at` becomes `NOW()`, and `is_cancelled` is reset to
`FALSE`; `class_id`, `first_seen_at` are untouched. -/
def updatedWith (s : SilverRecord) (r : BronzeRecord) (is_past : Bool)
    (now : Int) : SilverRecord :=
  { s with
    class_name := r.class_name
    instructor := r.instructor
    location := r.location
    start_ts := r.start_ts
    end_ts := r.end_ts
    capacity := r.capacity
    spots_available := r.spots_available
    status := r.status
    url := r.url
    last_updated_at := now
    last_scraped_at := r.scraped_at
    is_past := is_past
    source_run_id := some r.run_id
    source_snapshot_id := some r.id
    raw_data := r.raw
    is_cancelled := false }

/-- `update_silver_record` as a table transformation: the `UPDATE` touches
exactly the rows whose `class_id` matches. -/
def update_silver_record (table : List SilverRecord) (cid : String)
    (r : BronzeRecord) (is_past : Bool) (now : Int) : List SilverRecord :=
  table.map (fun s => if s.class_id = cid then updatedWith s r is_past now else s)

/-- One step of the grouping dictionary build (`aggregator.py` lines 356-362):
a new key is appended, an existing key keeps its position and its record is
replaced only when the incoming `scraped_at` is strictly greater. -/
def groupInsert (cid : String) (r : BronzeRecord) :
    List (String × BronzeRecord) → List (String × BronzeRecord)
  | [] => [(cid, r)]
  | (c, old) :: rest =>
      if c = cid then
        if old.scraped_at < r.scraped_at then (c, r) :: rest else (c, old) :: rest
      else (c, old) :: groupInsert cid r rest

/-- The `class_groups` dictionary built from the new bronze records
(`aggregator.py` lines 356-362). -/
def buildGroups (pyhash : String → Nat) (obs : List BronzeRecord) :
    List (String × BronzeRecord) :=
  obs.foldl (fun gs r => groupInsert (generate_class_id pyhash r) r gs) []

/-- The dictionary lookup on a group list. -/
def lookupG (gs : List (String × BronzeRecord)) (cid : String) :
    Option BronzeRecord :=
  (gs.find? (fun p => p.1 = cid)).map (fun p => p.2)

/-- The per-group body of the main loop (`aggregator.py` lines 369-392):
enhance, decide past/future, then skip / update / insert.  The accumulator
carries the table and the `inserted`/`updated` counters. -/
def mergeStep (now : Int) (acc : List SilverRecord × Nat × Nat)
    (g : String × BronzeRecord) : List SilverRecord × Nat × Nat :=
  let enhanced := enhance_record_with_raw_data g.2
  let is_past : Bool :=
    match enhanced.start_ts with
    | some t => decide (t < now)
    | none => false
  match get_existing_silver_record acc.1 g.1 with
  | some existing =>
      if existing.is_past then acc
      else (update_silver_record acc.1 g.1 enhanced is_past now, acc.2.1, acc.2.2 + 1)
  | none => (insert_silver_record acc.1 g.1 enhanced is_past now, acc.2.1 + 1, acc.2.2)

/-- `mark_cancelled_classes` (`aggregator.py` lines 484-522): rows with a
future start timestamp and `is_cancelled = FALSE` whose source has data in
this run but whose id is not among the run's groups are cancelled (with the
`last_updated_at` bookkeeping bump); the return value is the number of such
rows.  A SQL `NULL` start timestamp never satisfies `start_ts > %s`.

The cancellation condition of `mark_cancelled_classes`: a future,
not-yet-cancelled row whose source has data among the run's group survivors
(`sources_with_data`) but whose id is not a group key (`active_class_ids`). -/
def shouldCancelB (active : List (String × BronzeRecord)) (now : Int)
    (s : SilverRecord) : Bool :=
  (match s.start_ts with
   | some t => decide (now < t)
   | none => false)
  && !s.is_cancelled
  && decide (s.source ∈ active.map (fun p => p.2.source))
  && !(decide (s.class_id ∈ active.map (fun p => p.1)))

def mark_cancelled_classes (table : List SilverRecord)
    (active : List (String × BronzeRecord)) (now : Int) :
    List SilverRecord × Nat :=
  (table.map (fun s =>
      if shouldCancelB active now s then
        { s with is_cancelled := true, last_updated_at := now }
      else s),
   (table.filter (shouldCancelB active now)).length)

/-- `get_latest_aggregation_timestamp` (`aggregator.py` lines 322-331):
`SELECT MAX(completed_at) FROM silver_aggregation_log WHERE status =
'completed'`; `MAX` of no rows is `NULL`. -/
def maxOfList : List Int → Option Int
  | [] => none
  | x :: xs =>
      match maxOfList xs with
      | none => some x
      | some m => some (max x m)

def get_latest_aggregation_timestamp (ledger : List LogEntry) : Option Int :=
  maxOfList ((ledger.filter (fun e => e.status = "completed")).map
    (fun e => e.completed_at))

/-- `get_new_bronze_data` (`aggregator.py` lines 298-320): observations with
`scraped_at` strictly newer than the checkpoint, or — bootstrap rule — newer
than 24 hours (1440 minutes) before now.  The `ORDER BY source, scraped_at
DESC` clause only fixes the (arbitrary but deterministic) iteration order and
is not modelled. -/
def get_new_bronze_data (bronze : List BronzeRecord) (now : Int)
    (since : Option Int) : List BronzeRecord :=
  match since with
  | some t => bronze.filter (fun r => t < r.scraped_at)
  | none => bronze.filter (fun r => now - 1440 < r.scraped_at)

/-- `process_incremental_update` (`aggregator.py` lines 333-398). -/
def process_incremental_update (pyhash : String → Nat)
    (bronze : List BronzeRecord) (ledger : List LogEntry)
    (table : List SilverRecord) (now : Int) : List SilverRecord × Stats :=
  let last_aggregation := get_latest_aggregation_timestamp ledger
  let new_records := get_new_bronze_data bronze now last_aggregation
  if new_records.isEmpty then (table, ⟨0, 0, 0, 0⟩)
  else
    let class_groups := buildGroups pyhash new_records
    let merged := class_groups.foldl (mergeStep now) (table, 0, 0)
    let swept := mark_cancelled_classes merged.1 class_groups now
    (swept.1, ⟨class_groups.length, merged.2.1, merged.2.2, swept.2⟩)

/-- `log_aggregation_run` (`aggregator.py` lines 524-535).  The statistics
argument is a Python dict; the parameter tuple indexes it with
`stats['processed']` etc., so a dict missing those keys raises `KeyError`
before the `INSERT` executes. -/
def log_aggregation_run (ledger : List LogEntry) (run_id source : String)
    (stats : List (String × Nat)) (status : String) (error : Option String)
    (now : Int) : Except String (List LogEntry) :=
  match (stats.find? (fun p => p.1 = "processed")).map (fun p => p.2),
        (stats.find? (fun p => p.1 = "inserted")).map (fun p => p.2),
        (stats.find? (fun p => p.1 = "updated")).map (fun p => p.2),
        (stats.find? (fun p => p.1 = "cancelled")).map (fun p => p.2) with
  | some p, some i, some u, some c =>
      .ok (ledger ++ [{ run_id := run_id, source := source, completed_at := now,
                        records_processed := p, records_inserted := i,
                        records_updated := u, records_cancelled := c,
                        status := status, error_message := error }])
  | _, _, _, _ => .error "KeyError"

/-- The statistics dict passed on the success path of `run_aggregation`. -/
def statsDict (st : Stats) : List (String × Nat) :=
  [("processed", st.processed), ("inserted", st.inserted),
   ("updated", st.updated), ("cancelled", st.cancelled)]

/-- The `except Exception` branch of `run_aggregation` (`aggregator.py` lines
559-566): attempt to record a `failed` ledger entry passing the **empty**
stats dict `{}`; any exception from that attempt is swallowed by the bare
`except: pass`, and the original error is re-raised.  Returns the resulting
ledger and the re-raised error message. -/
def run_aggregation_on_failure (ledger : List LogEntry) (run_id : String)
    (e : String) (now : Int) : List LogEntry × String :=
  match log_aggregation_run ledger run_id "all" [] "failed" (some e) now with
  | .ok l => (l, e)
  | .error _ => (ledger, e)

/-! ### Frame lemmas for the enhancer -/

/-- Agreement on every bronze field except the four structured fields
`start_ts`, `end_ts`, `capacity`, `spots_available`. -/
def framePreserved (r e : BronzeRecord) : Prop :=
  e.id = r.id ∧ e.run_id = r.run_id ∧ e.source = r.source ∧
  e.item_uid = r.item_uid ∧ e.class_name = r.class_name ∧
  e.instructor = r.instructor ∧ e.location = r.location ∧
  e.status = r.status ∧ e.url = r.url ∧ e.scraped_at = r.scraped_at ∧
  e.raw = r.raw

/-- Agreement on everything except `start_ts` and `end_ts`. -/
def nonTemporalEq (r e : BronzeRecord) : Prop :=
  framePreserved r e ∧ e.capacity = r.capacity ∧
  e.spots_available = r.spots_available

/-- Agreement on everything except `capacity` and `spots_available`. -/
def nonCapacityEq (r e : BronzeRecord) : Prop :=
  framePreserved r e ∧ e.start_ts = r.start_ts ∧ e.end_ts = r.end_ts

theorem framePreserved_refl (r : BronzeRecord) : framePreserved r r := by
  simp [framePreserved]

theorem framePreserved_trans {a b c : BronzeRecord}
    (h1 : framePreserved a b) (h2 : framePreserved b c) : framePreserved a c := by
  unfold framePreserved at *
  obtain ⟨e1, e2, e3, e4, e5, e6, e7, e8, e9, e10, e11⟩ := h1
  obtain ⟨f1, f2, f3, f4, f5, f6, f7, f8, f9, f10, f11⟩ := h2
  exact ⟨f1.trans e1, f2.trans e2, f3.trans e3, f4.trans e4, f5.trans e5,
    f6.trans e6, f7.trans e7, f8.trans e8, f9.trans e9, f10.trans e10,
    f11.trans e11⟩

theorem applyTempRes_nonTemporal (r : BronzeRecord) (t : TempRes) :
    nonTemporalEq r (applyTempRes r t).1 := by
  cases t <;> simp [applyTempRes, nonTemporalEq, framePreserved]

theorem applyCapRes_nonCapacity (r : BronzeRecord) (c : CapRes) :
    nonCapacityEq r (applyCapRes r c) := by
  cases c <;> simp [applyCapRes, nonCapacityEq, framePreserved]

theorem nonCapacityEq_refl (r : BronzeRecord) : nonCapacityEq r r :=
  ⟨framePreserved_refl r, rfl, rfl⟩

theorem ccTemporal_nonTemporal (r : BronzeRecord) :
    nonTemporalEq r (ccTemporal r).1 :=
  applyTempRes_nonTemporal r (ccTemporalRes r)

theorem rrTemporal_nonTemporal (r : BronzeRecord) :
    nonTemporalEq r (rrTemporal r).1 :=
  applyTempRes_nonTemporal r (rrTemporalRes r)

theorem kpTemporal_nonTemporal (r : BronzeRecord) :
    nonTemporalEq r (kpTemporal r) :=
  applyTempRes_nonTemporal r (kpTemporalRes r)

theorem ccCapacity_nonCapacity (r : BronzeRecord) :
    nonCapacityEq r (ccCapacity r) := by
  unfold ccCapacity
  repeat' split
  all_goals first
    | exact applyCapRes_nonCapacity r _
    | exact nonCapacityEq_refl r

theorem rrCapacity_nonCapacity (r : BronzeRecord) :
    nonCapacityEq r (rrCapacity r) := by
  unfold rrCapacity
  repeat' split
  all_goals first
    | exact applyCapRes_nonCapacity r _
    | exact nonCapacityEq_refl r

theorem kpCapacity_nonCapacity (r : BronzeRecord) :
    nonCapacityEq r (kpCapacity r) := by
  unfold kpCapacity
  repeat' split
  all_goals first
    | exact applyCapRes_nonCapacity r _
    | exact nonCapacityEq_refl r

/-- A populated (`some`) start timestamp falsifies the guard of each temporal
block. -/
theorem ccTemporalRes_skip (r : BronzeRecord) (h : r.start_ts.isSome) :
    ccTemporalRes r = .skip := by
  unfold ccTemporalRes
  rw [if_neg]
  rintro ⟨h1, -⟩
  rw [h1] at h
  simp at h

theorem rrTemporalRes_skip (r : BronzeRecord) (h : r.start_ts.isSome) :
    rrTemporalRes r = .skip := by
  unfold rrTemporalRes
  rw [if_neg]
  rintro ⟨h1, -⟩
  rw [h1] at h
  simp at h

theorem kpTemporalRes_skip (r : BronzeRecord) (h : r.start_ts.isSome) :
    kpTemporalRes r = .skip := by
  unfold kpTemporalRes
  rw [if_neg]
  rintro ⟨h1, -⟩
  rw [h1] at h
  simp at h

/-- A truthy (non-null, non-zero) capacity falsifies the guard of each
capacity block. -/
theorem ccCapacity_skip (r : BronzeRecord) (h : pyFalsyCap r.capacity = false) :
    ccCapacity r = r := by
  unfold ccCapacity
  rw [if_neg]
  rintro ⟨h1, -⟩
  rw [h] at h1
  cases h1

theorem rrCapacity_skip (r : BronzeRecord) (h : pyFalsyCap r.capacity = false) :
    rrCapacity r = r := by
  unfold rrCapacity
  rw [if_neg]
  intro h1
  rw [h] at h1
  cases h1

theorem kpCapacity_skip (r : BronzeRecord) (h : pyFalsyCap r.capacity = false) :
    kpCapacity r = r := by
  unfold kpCapacity
  rw [if_neg]
  rintro ⟨h1, -⟩
  rw [h] at h1
  cases h1

theorem coolcharmBranch_frame (r : BronzeRecord) :
    framePreserved r (coolcharmBranch r) := by
  unfold coolcharmBranch
  split
  · exact (ccTemporal_nonTemporal r).1
  · exact framePreserved_trans (ccTemporal_nonTemporal r).1
      (ccCapacity_nonCapacity (ccTemporal r).1).1

theorem rowreformerBranch_frame (r : BronzeRecord) :
    framePreserved r (rowreformerBranch r) := by
  unfold rowreformerBranch
  split
  · exact (rrTemporal_nonTemporal r).1
  · exact framePreserved_trans (rrTemporal_nonTemporal r).1
      (rrCapacity_nonCapacity (rrTemporal r).1).1

theorem koepelBranch_frame (r : BronzeRecord) :
    framePreserved r (koepelBranch r) :=
  framePreserved_trans (kpTemporal_nonTemporal r).1
    (kpCapacity_nonCapacity (kpTemporal r)).1

theorem coolcharmBranch_start (r : BronzeRecord) (h : r.start_ts.isSome) :
    (coolcharmBranch r).start_ts = r.start_ts ∧
    (coolcharmBranch r).end_ts = r.end_ts := by
  have ht : ccTemporal r = (r, false) := by
    unfold ccTemporal
    rw [ccTemporalRes_skip r h]
    rfl
  unfold coolcharmBranch
  rw [ht]
  simp only [Bool.false_eq_true, if_false]
  exact ⟨(ccCapacity_nonCapacity r).2.1, (ccCapacity_nonCapacity r).2.2⟩

theorem rowreformerBranch_start (r : BronzeRecord) (h : r.start_ts.isSome) :
    (rowreformerBranch r).start_ts = r.start_ts ∧
    (rowreformerBranch r).end_ts = r.end_ts := by
  have ht : rrTemporal r = (r, false) := by
    unfold rrTemporal
    rw [rrTemporalRes_skip r h]
    rfl
  unfold rowreformerBranch
  rw [ht]
  simp only [Bool.false_eq_true, if_false]
  exact ⟨(rrCapacity_nonCapacity r).2.1, (rrCapacity_nonCapacity r).2.2⟩

theorem koepelBranch_start (r : BronzeRecord) (h : r.start_ts.isSome) :
    (koepelBranch r).start_ts = r.start_ts ∧
    (koepelBranch r).end_ts = r.end_ts := by
  have ht : kpTemporal r = r := by
    unfold kpTemporal
    rw [kpTemporalRes_skip r h]
    rfl
  unfold koepelBranch
  rw [ht]
  exact ⟨(kpCapacity_nonCapacity r).2.1, (kpCapacity_nonCapacity r).2.2⟩

theorem coolcharmBranch_cap (r : BronzeRecord) (h : pyFalsyCap r.capacity = false) :
    (coolcharmBranch r).capacity = r.capacity ∧
    (coolcharmBranch r).spots_available = r.spots_available := by
  have hcap : pyFalsyCap (ccTemporal r).1.capacity = false := by
    rw [(ccTemporal_nonTemporal r).2.1, h]
  unfold coolcharmBranch
  split
  · exact ⟨(ccTemporal_nonTemporal r).2.1, (ccTemporal_nonTemporal r).2.2⟩
  · rw [ccCapacity_skip _ hcap]
    exact ⟨(ccTemporal_nonTemporal r).2.1, (ccTemporal_nonTemporal r).2.2⟩

theorem rowreformerBranch_cap (r : BronzeRecord) (h : pyFalsyCap r.capacity = false) :
    (rowreformerBranch r).capacity = r.capacity ∧
    (rowreformerBranch r).spots_available = r.spots_available := by
  have hcap : pyFalsyCap (rrTemporal r).1.capacity = false := by
    rw [(rrTemporal_nonTemporal r).2.1, h]
  unfold rowreformerBranch
  split
  · exact ⟨(rrTemporal_nonTemporal r).2.1, (rrTemporal_nonTemporal r).2.2⟩
  · rw [rrCapacity_skip _ hcap]
    exact ⟨(rrTemporal_nonTemporal r).2.1, (rrTemporal_nonTemporal r).2.2⟩

theorem koepelBranch_cap (r : BronzeRecord) (h : pyFalsyCap r.capacity = false) :
    (koepelBranch r).capacity = r.capacity ∧
    (koepelBranch r).spots_available = r.spots_available := by
  have hcap : pyFalsyCap (kpTemporal r).capacity = false := by
    rw [(kpTemporal_nonTemporal r).2.1, h]
  unfold koepelBranch
  rw [kpCapacity_skip _ hcap]
  exact ⟨(kpTemporal_nonTemporal r).2.1, (kpTemporal_nonTemporal r).2.2⟩

/-- Claim C9: `enhance_record_with_raw_data` changes at most the four
structured fields `start_ts`, `end_ts`, `capacity` and `spots_available`;
every other field of the returned record equals the input's (the embedding is
a pure function of the input record, reflecting that the Python code works on
`record.copy()` and never mutates its argument). -/
theorem claim_C9_enhancer_frame (r : BronzeRecord) :
    framePreserved r (enhance_record_with_raw_data r) := by
  unfold enhance_record_with_raw_data
  repeat' split
  · exact coolcharmBranch_frame r
  · exact rowreformerBranch_frame r
  · exact koepelBranch_frame r
  · exact framePreserved_refl r

/-- Claim C7 (amended): the enhancer never overwrites a populated `start_ts`
(the temporal guard), and never overwrites a populated non-zero `capacity`
(the capacity guard); when `start_ts` is populated `end_ts` is also left
alone, and when `capacity` is truthy `spots_available` is also left alone.
The guards test only `start_ts` resp. `capacity`, so a populated `end_ts`
(with null `start_ts`) or a populated `spots_available` (with null capacity)
can be overwritten — see the counterexample. -/
theorem claim_C7_enhancer_guards (r : BronzeRecord) :
    (r.start_ts.isSome →
      (enhance_record_with_raw_data r).start_ts = r.start_ts ∧
      (enhance_record_with_raw_data r).end_ts = r.end_ts) ∧
    (∀ n : Int, r.capacity = some n → n ≠ 0 →
      (enhance_record_with_raw_data r).capacity = r.capacity ∧
      (enhance_record_with_raw_data r).spots_available = r.spots_available) := by
  constructor
  · intro h
    unfold enhance_record_with_raw_data
    repeat' split
    · exact coolcharmBranch_start r h
    · exact rowreformerBranch_start r h
    · exact koepelBranch_start r h
    · exact ⟨rfl, rfl⟩
  · intro n hn hnz
    have h : pyFalsyCap r.capacity = false := by
      rw [hn]
      simpa [pyFalsyCap] using hnz
    unfold enhance_record_with_raw_data
    repeat' split
    · exact coolcharmBranch_cap r h
    · exact rowreformerBranch_cap r h
    · exact koepelBranch_cap r h
    · exact ⟨rfl, rfl⟩

/-- The counterexample record for claim C7: a coolcharm observation with a
populated `end_ts` but a null `start_ts`, and a parseable raw date/time. -/
def rC7 : BronzeRecord :=
  { id := 1, run_id := "r", source := "coolcharm", item_uid := none,
    class_name := none, instructor := none, location := none,
    start_ts := none, end_ts := some 999, capacity := none,
    spots_available := none, status := none, url := none, scraped_at := 0,
    raw := [("date", PyVal.s "01/09/2025"), ("time", PyVal.s "10:00 - 11:00")] }

/-- Claim C7 as stated is false: the temporal guard checks only `start_ts`,
so the populated `end_ts` of `rC7` is overwritten by the parsed end time. -/
theorem claim_C7_counterexample :
    rC7.end_ts = some 999 ∧
    (enhance_record_with_raw_data rC7).end_ts ≠ some 999 := by
  constructor
  · rfl
  · decide

/-- A record on which both guards of the amended claim C7 fire non-vacuously
(its raw payload would enhance all four fields if they were null). -/
def rC7w : BronzeRecord :=
  { rC7 with start_ts := some 50, end_ts := some 60,
             capacity := some 5, spots_available := some 2,
             raw := rC7.raw ++ [("availability", PyVal.s "3 / 8")] }

theorem claim_C7_enhancer_guards_witness :
    (enhance_record_with_raw_data rC7w).start_ts = rC7w.start_ts ∧
    (enhance_record_with_raw_data rC7w).end_ts = rC7w.end_ts ∧
    (enhance_record_with_raw_data rC7w).capacity = rC7w.capacity ∧
    (enhance_record_with_raw_data rC7w).spots_available = rC7w.spots_available := by
  have h := claim_C7_enhancer_guards rC7w
  obtain ⟨h1, h2⟩ := h.1 rfl
  obtain ⟨h3, h4⟩ := h.2 5 rfl (by decide)
  exact ⟨h1, h2, h3, h4⟩

/-! ### Claims about the identity deriver -/

/-- Claim C8: `generate_class_id` is total.  For every bronze observation —
whatever its source and however sparse its raw payload and columns — it
returns an identity of the shape `source ++ ":" ++ d` with `d` exactly twelve
digits; and on an unknown source with no key data at all, the generic
fallback key set and the `'unknown'` sentinel produce the key string
`"unknown|unknown|unknown"`. -/
theorem claim_C8_identity_totality (pyhash : String → Nat) (r : BronzeRecord) :
    (∃ d : String, generate_class_id pyhash r = r.source ++ ":" ++ d ∧
      d.length = 12) ∧
    (r.raw = [] → r.class_name = none → r.location = none → r.start_ts = none →
      r.source ∉ ["coolcharm", "koepel", "rite", "rowreformer"] →
      generate_class_id pyhash r =
        r.source ++ ":" ++ digits12 (pyhash "unknown|unknown|unknown" % 10 ^ 12)) := by
  constructor
  · exact ⟨_, rfl, digits12_length _⟩
  · intro hraw hcn hloc hst hsrc
    simp only [List.mem_cons, List.not_mem_nil, or_false, not_or] at hsrc
    obtain ⟨n1, n2, n3, n4⟩ := hsrc
    have hks : class_id_keys r.source = ["class_name", "start_ts", "location"] := by
      unfold class_id_keys
      rw [if_neg n1, if_neg n2, if_neg n3, if_neg n4]
    have h1 : keyValue r "class_name" = "unknown" := by
      unfold keyValue rawLookup recordGet
      rw [hraw, hcn]
      rfl
    have h2 : keyValue r "start_ts" = "unknown" := by
      unfold keyValue rawLookup recordGet
      rw [hraw, hst]
      rfl
    have h3 : keyValue r "location" = "unknown" := by
      unfold keyValue rawLookup recordGet
      rw [hraw, hloc]
      rfl
    have hkey : key_string r = "unknown|unknown|unknown" := by
      unfold key_string
      rw [hks]
      simp only [List.map_cons, List.map_nil, h1, h2, h3]
      rfl
    unfold generate_class_id
    rw [hkey]

/-- A bronze observation of an unknown source with an empty payload. -/
def rC8 : BronzeRecord :=
  { id := 0, run_id := "", source := "mystery", item_uid := none,
    class_name := none, instructor := none, location := none,
    start_ts := none, end_ts := none, capacity := none,
    spots_available := none, status := none, url := none, scraped_at := 0,
    raw := [] }

theorem claim_C8_identity_totality_witness :
    (∃ d : String, generate_class_id String.length rC8 = rC8.source ++ ":" ++ d ∧
      d.length = 12) ∧
    generate_class_id String.length rC8 =
      rC8.source ++ ":" ++ digits12 (String.length "unknown|unknown|unknown" % 10 ^ 12) := by
  have h := claim_C8_identity_totality String.length rC8
  exact ⟨h.1, h.2 rfl rfl rfl rfl (by decide)⟩

/-- The koepel observation used to exhibit the hash-salt dependence of the
class identity. -/
def rC2 : BronzeRecord :=
  { id := 7, run_id := "run-1", source := "koepel", item_uid := none,
    class_name := some "Pilates", instructor := some "Ann",
    location := some "Gent", start_ts := none, end_ts := none,
    capacity := none, spots_available := none, status := none, url := none,
    scraped_at := 10,
    raw := [("date", PyVal.s "zaterdag 17 mei"), ("time", PyVal.s "11:00 - 11:45"),
            ("instructor", PyVal.s "Ann"), ("description", PyVal.s "BBB")] }

/-- Claim C2 fails on the code: `generate_class_id` feeds the key string to
the interpreter's built-in `hash`, which is salted per process
(`PYTHONHASHSEED`), so the identity of one and the same observation is a
function of the process hash — here two admissible hash functions give the
observation different identities.  Within a single process (a fixed `pyhash`)
the function is deterministic. -/
theorem claim_C2_identity_depends_on_hash_salt :
    generate_class_id (fun _ => 0) rC2 ≠ generate_class_id (fun _ => 1) rC2 := by
  decide

/-! ### Properties of the grouping dictionary -/

/-- The dictionary-step characterization of `groupInsert`: at the inserted key
the entry becomes the strictly-newer of the incumbent and the newcomer (with
the incumbent kept on ties), other keys are untouched. -/
theorem lookupG_groupInsert (cid : String) (x : BronzeRecord)
    (gs : List (String × BronzeRecord)) (c : String) :
    lookupG (groupInsert cid x gs) c =
      if c = cid then
        match lookupG gs cid with
        | none => some x
        | some old => some (if old.scraped_at < x.scraped_at then x else old)
      else lookupG gs c := by
  induction gs with
  | nil =>
      by_cases hc : c = cid
      · simp [groupInsert, lookupG, hc]
      · simp [groupInsert, lookupG, hc, Ne.symm hc]
  | cons p rest ih =>
      obtain ⟨a, old⟩ := p
      by_cases hac : a = cid
      · subst hac
        by_cases hc : c = a
        · subst hc
          by_cases hts : old.scraped_at < x.scraped_at
          · simp [groupInsert, lookupG, hts]
          · simp [groupInsert, lookupG, hts]
        · by_cases hts : old.scraped_at < x.scraped_at
          · simp [groupInsert, lookupG, hts, hc, Ne.symm hc]
          · simp [groupInsert, lookupG, hts, hc, Ne.symm hc]
      · by_cases hca : c = a
        · subst hca
          have hcc : ¬(c = cid) := hac
          simp [groupInsert, lookupG, hac, hcc]
        · have h1 : lookupG ((a, old) :: groupInsert cid x rest) c
              = lookupG (groupInsert cid x rest) c := by
            simp [lookupG, List.find?_cons_of_neg, Ne.symm hca]
          have h2 : lookupG ((a, old) :: rest) c = lookupG rest c := by
            simp [lookupG, List.find?_cons_of_neg, Ne.symm hca]
          by_cases hc : c = cid
          · subst hc
            have h3 : lookupG ((a, old) :: rest) c = lookupG rest c := h2
            simp only [groupInsert, if_neg hac, h1, ih, if_pos rfl, h2]
          · simp only [groupInsert, if_neg hac, h1, ih, if_neg hc, h2]

/-- Key-present case of the dictionary step. -/
theorem lookupG_groupInsert_self_some (cid : String) (x old : BronzeRecord)
    (gs : List (String × BronzeRecord)) (h : lookupG gs cid = some old) :
    lookupG (groupInsert cid x gs) cid =
      some (if old.scraped_at < x.scraped_at then x else old) := by
  have h2 := lookupG_groupInsert cid x gs cid
  rw [if_pos rfl, h] at h2
  exact h2

/-- Key-absent case of the dictionary step. -/
theorem lookupG_groupInsert_self_none (cid : String) (x : BronzeRecord)
    (gs : List (String × BronzeRecord)) (h : lookupG gs cid = none) :
    lookupG (groupInsert cid x gs) cid = some x := by
  have h2 := lookupG_groupInsert cid x gs cid
  rw [if_pos rfl, h] at h2
  exact h2

/-- Other keys are untouched by the dictionary step. -/
theorem lookupG_groupInsert_other (cid : String) (x : BronzeRecord)
    (gs : List (String × BronzeRecord)) (c : String) (h : c ≠ cid) :
    lookupG (groupInsert cid x gs) c = lookupG gs c := by
  have h2 := lookupG_groupInsert cid x gs c
  rw [if_neg h] at h2
  exact h2

/-- Every entry of `groupInsert cid x gs` is an old entry or the new pair. -/
theorem mem_groupInsert (cid : String) (x : BronzeRecord)
    (gs : List (String × BronzeRecord)) (p : String × BronzeRecord)
    (hp : p ∈ groupInsert cid x gs) : p ∈ gs ∨ p = (cid, x) := by
  induction gs with
  | nil =>
      simp [groupInsert] at hp
      exact Or.inr hp
  | cons q rest ih =>
      obtain ⟨a, old⟩ := q
      by_cases hac : a = cid
      · subst hac
        by_cases hts : old.scraped_at < x.scraped_at
        · simp [groupInsert, hts] at hp
          rcases hp with h | h
          · exact Or.inr (by simp [h])
          · exact Or.inl (List.mem_cons_of_mem _ h)
        · simp [groupInsert, hts] at hp
          rcases hp with h | h
          · exact Or.inl (by simp [h])
          · exact Or.inl (List.mem_cons_of_mem _ h)
      · simp only [groupInsert, if_neg hac, List.mem_cons] at hp
        rcases hp with h | h
        · exact Or.inl (by simp [h])
        · rcases ih h with h2 | h2
          · exact Or.inl (List.mem_cons_of_mem _ h2)
          · exact Or.inr h2

/-- The key list of `groupInsert`: unchanged for a known key, appended for a
new key. -/
theorem keys_groupInsert (cid : String) (x : BronzeRecord)
    (gs : List (String × BronzeRecord)) :
    (groupInsert cid x gs).map Prod.fst =
      if cid ∈ gs.map Prod.fst then gs.map Prod.fst
      else gs.map Prod.fst ++ [cid] := by
  induction gs with
  | nil => simp [groupInsert]
  | cons q rest ih =>
      obtain ⟨a, old⟩ := q
      by_cases hac : a = cid
      · subst hac
        by_cases hts : old.scraped_at < x.scraped_at
        · simp [groupInsert, hts]
        · simp [groupInsert, hts]
      · have hne : ¬(cid = a) := fun h => hac h.symm
        by_cases hmem : cid ∈ rest.map Prod.fst
        · simp [groupInsert, hac, ih, hmem, hne]
        · simp [groupInsert, hac, ih, hmem, hne]

theorem mem_keys_groupInsert (cid : String) (x : BronzeRecord)
    (gs : List (String × BronzeRecord)) (c : String) :
    c ∈ (groupInsert cid x gs).map Prod.fst ↔ c = cid ∨ c ∈ gs.map Prod.fst := by
  rw [keys_groupInsert]
  split
  · constructor
    · intro h
      exact Or.inr h
    · rintro (rfl | h)
      · assumption
      · exact h
  · simp [or_comm]

theorem nodup_append_singleton {α : Type} {l : List α} {a : α}
    (ha : a ∉ l) (hl : l.Nodup) : (l ++ [a]).Nodup := by
  induction l with
  | nil => simp
  | cons b rest ih =>
      simp only [List.mem_cons, not_or] at ha
      simp only [List.cons_append, List.nodup_cons]
      constructor
      · intro hb
        rcases List.mem_append.mp hb with h | h
        · exact (List.nodup_cons.mp hl).1 h
        · simp at h
          exact ha.1 h.symm
      · exact ih ha.2 (List.nodup_cons.mp hl).2

theorem keys_nodup_fold (pyhash : String → Nat) (l : List BronzeRecord) :
    ∀ gs : List (String × BronzeRecord), (gs.map Prod.fst).Nodup →
      (((l.foldl (fun gs r => groupInsert (generate_class_id pyhash r) r gs) gs)).map
        Prod.fst).Nodup := by
  induction l with
  | nil => intro gs h; simpa using h
  | cons a rest ih =>
      intro gs h
      simp only [List.foldl_cons]
      apply ih
      rw [keys_groupInsert]
      split
      · exact h
      · exact nodup_append_singleton (by assumption) h

theorem mem_keys_fold (pyhash : String → Nat) (l : List BronzeRecord) :
    ∀ (gs : List (String × BronzeRecord)) (c : String),
      c ∈ ((l.foldl (fun gs r => groupInsert (generate_class_id pyhash r) r gs) gs)).map
        Prod.fst ↔
      c ∈ gs.map Prod.fst ∨ c ∈ l.map (generate_class_id pyhash) := by
  induction l with
  | nil => intro gs c; simp
  | cons a rest ih =>
      intro gs c
      simp only [List.foldl_cons, List.map_cons, List.mem_cons]
      rw [ih, mem_keys_groupInsert]
      constructor
      · rintro ((rfl | h) | h)
        · exact Or.inr (Or.inl rfl)
        · exact Or.inl h
        · exact Or.inr (Or.inr h)
      · rintro (h | (rfl | h))
        · exact Or.inl (Or.inr h)
        · exact Or.inl (Or.inl rfl)
        · exact Or.inr h

theorem mem_fold_groups (pyhash : String → Nat) (l : List BronzeRecord) :
    ∀ (gs : List (String × BronzeRecord)) (p : String × BronzeRecord),
      p ∈ l.foldl (fun gs r => groupInsert (generate_class_id pyhash r) r gs) gs →
      p ∈ gs ∨ (p.2 ∈ l ∧ generate_class_id pyhash p.2 = p.1) := by
  induction l with
  | nil => intro gs p hp; exact Or.inl (by simpa using hp)
  | cons a rest ih =>
      intro gs p hp
      simp only [List.foldl_cons] at hp
      rcases ih _ p hp with h | h
      · rcases mem_groupInsert _ _ _ _ h with h2 | h2
        · exact Or.inl h2
        · subst h2
          exact Or.inr ⟨List.mem_cons_self _ _, rfl⟩
      · exact Or.inr ⟨List.mem_cons_of_mem _ h.1, h.2⟩

theorem lookupG_fold_mono (pyhash : String → Nat) (l : List BronzeRecord) :
    ∀ (gs : List (String × BronzeRecord)) (c : String) (r : BronzeRecord),
      lookupG gs c = some r →
      ∃ r2, lookupG
          (l.foldl (fun gs x => groupInsert (generate_class_id pyhash x) x gs) gs) c =
          some r2 ∧ r.scraped_at ≤ r2.scraped_at := by
  induction l with
  | nil => intro gs c r h; exact ⟨r, h, le_refl _⟩
  | cons a rest ih =>
      intro gs c r h
      simp only [List.foldl_cons]
      by_cases hc : c = generate_class_id pyhash a
      · subst hc
        have h2 := lookupG_groupInsert_self_some _ a r gs h
        by_cases hts : r.scraped_at < a.scraped_at
        · rw [if_pos hts] at h2
          obtain ⟨r2, hr2, hle⟩ := ih _ _ _ h2
          exact ⟨r2, hr2, le_trans (le_of_lt hts) hle⟩
        · rw [if_neg hts] at h2
          exact ih _ _ _ h2
      · have h2 := lookupG_groupInsert_other (generate_class_id pyhash a) a gs c hc
        rw [h] at h2
        exact ih _ _ _ h2

theorem lookupG_fold_after (pyhash : String → Nat) (l : List BronzeRecord) :
    ∀ (gs : List (String × BronzeRecord)) (o : BronzeRecord) (c : String),
      o ∈ l → generate_class_id pyhash o = c →
      ∃ r, lookupG
          (l.foldl (fun gs x => groupInsert (generate_class_id pyhash x) x gs) gs) c =
          some r ∧ o.scraped_at ≤ r.scraped_at := by
  induction l with
  | nil => intro gs o c h; cases h
  | cons a rest ih =>
      intro gs o c ho hc
      simp only [List.foldl_cons]
      rcases List.mem_cons.mp ho with rfl | hmem
      · subst hc
        cases hgs : lookupG gs (generate_class_id pyhash o) with
        | none =>
            have h2 := lookupG_groupInsert_self_none _ o gs hgs
            exact lookupG_fold_mono pyhash rest _ _ _ h2
        | some old =>
            have h2 := lookupG_groupInsert_self_some _ o old gs hgs
            by_cases hts : old.scraped_at < o.scraped_at
            · rw [if_pos hts] at h2
              exact lookupG_fold_mono pyhash rest _ _ _ h2
            · rw [if_neg hts] at h2
              obtain ⟨r2, hr2, hle⟩ := lookupG_fold_mono pyhash rest _ _ _ h2
              exact ⟨r2, hr2, le_trans (le_of_not_lt hts) hle⟩
      · exact ih _ _ _ hmem hc

theorem lookupG_of_mem_nodup (gs : List (String × BronzeRecord))
    (p : String × BronzeRecord) (hnd : (gs.map Prod.fst).Nodup) (hp : p ∈ gs) :
    lookupG gs p.1 = some p.2 := by
  induction gs with
  | nil => cases hp
  | cons q rest ih =>
      simp only [List.map_cons, List.nodup_cons] at hnd
      rcases List.mem_cons.mp hp with rfl | hmem
      · simp [lookupG]
      · have hne : q.1 ≠ p.1 := by
          intro h
          exact hnd.1 (h ▸ List.mem_map_of_mem Prod.fst hmem)
        have : lookupG (q :: rest) p.1 = lookupG rest p.1 := by
          simp [lookupG, List.find?_cons_of_neg, hne]
        rw [this]
        exact ih hnd.2 hmem

/-- Claim C4 (amended): within one run, the observation kept per derived
identity is one with the maximum `scraped_at`; but on a timestamp tie the
observation processed **first** survives — the grouping replaces the
incumbent only on a strictly greater timestamp, so an equal-timestamp
newcomer is discarded (the claim said the last-processed one survives; see
the counterexample). -/
theorem claim_C4_group_last_write_wins (pyhash : String → Nat)
    (obs : List BronzeRecord) :
    (∀ p ∈ buildGroups pyhash obs,
        p.2 ∈ obs ∧ generate_class_id pyhash p.2 = p.1 ∧
        ∀ o ∈ obs, generate_class_id pyhash o = p.1 →
          o.scraped_at ≤ p.2.scraped_at) ∧
    (∀ (gs : List (String × BronzeRecord)) (cid : String)
        (x incumbent : BronzeRecord),
        lookupG gs cid = some incumbent →
        x.scraped_at ≤ incumbent.scraped_at →
        lookupG (groupInsert cid x gs) cid = some incumbent) := by
  constructor
  · intro p hp
    have hp2 : p ∈ obs.foldl
        (fun gs r => groupInsert (generate_class_id pyhash r) r gs) [] := hp
    rcases mem_fold_groups pyhash obs [] p hp2 with h | h
    · cases h
    refine ⟨h.1, h.2, ?_⟩
    intro o ho hgen
    have hnd : ((buildGroups pyhash obs).map Prod.fst).Nodup :=
      keys_nodup_fold pyhash obs [] (by simp)
    have hlook : lookupG (buildGroups pyhash obs) p.1 = some p.2 :=
      lookupG_of_mem_nodup _ p hnd hp
    obtain ⟨r, hr, hle⟩ := lookupG_fold_after pyhash obs [] o p.1 ho hgen
    have : r = p.2 := by
      have := hr.symm.trans hlook
      exact Option.some.inj this
    exact this ▸ hle
  · intro gs cid x incumbent h hle
    have h2 := lookupG_groupInsert_self_some cid x incumbent gs h
    rw [if_neg (not_lt.mpr hle)] at h2
    exact h2

/-- Two observations sharing a derived identity and a `scraped_at` timestamp
but differing in payload (their `status` fields differ). -/
def rC4a : BronzeRecord :=
  { id := 1, run_id := "r", source := "s1", item_uid := none,
    class_name := some "Yoga", instructor := none, location := some "Gent",
    start_ts := none, end_ts := none, capacity := none,
    spots_available := none, status := some "open", url := none,
    scraped_at := 5, raw := [] }

def rC4b : BronzeRecord :=
  { rC4a with id := 2, status := some "closed" }

/-- Claim C4 as stated is false on ties: `rC4a` and `rC4b` share identity and
timestamp, `rC4b` is processed last, yet the group keeps `rC4a` (the
replacement needs a strictly greater timestamp). -/
theorem claim_C4_counterexample :
    rC4a.scraped_at = rC4b.scraped_at ∧ rC4a ≠ rC4b ∧
    generate_class_id (fun _ => 0) rC4a = generate_class_id (fun _ => 0) rC4b ∧
    (buildGroups (fun _ => 0) [rC4a, rC4b]).map Prod.snd = [rC4a] := by
  refine ⟨rfl, by decide, rfl, by decide⟩

theorem claim_C4_group_last_write_wins_witness :
    (rC4b.scraped_at ≤ rC4a.scraped_at) ∧
    lookupG (groupInsert "k" rC4b [("k", rC4a)]) "k" = some rC4a := by
  have h := claim_C4_group_last_write_wins (fun _ => 0) [rC4a, rC4b]
  refine ⟨?_, ?_⟩
  · exact (h.1 (generate_class_id (fun _ => 0) rC4a, rC4a) (by decide)).2.2
      rC4b (by decide) (by decide)
  · exact h.2 [("k", rC4a)] "k" rC4b rC4a (by decide) (by decide)

/-! ### Past-immutability through the merge loop -/

theorem find?_map_preserve (t : List SilverRecord) (f : SilverRecord → SilverRecord)
    (hf : ∀ s, (f s).class_id = s.class_id) (c : String) :
    (t.map f).find? (fun s => s.class_id = c) =
      (t.find? (fun s => s.class_id = c)).map f := by
  induction t with
  | nil => rfl
  | cons a rest ih =>
      by_cases h : a.class_id = c
      · have h2 : (f a).class_id = c := by rw [hf, h]
        simp [h, h2]
      · have h2 : ¬((f a).class_id = c) := by rw [hf]; exact h
        simp [h, h2, ih]

theorem updatedWith_class_id (s : SilverRecord) (r : BronzeRecord)
    (is_past : Bool) (now : Int) :
    (updatedWith s r is_past now).class_id = s.class_id := rfl

/-- One merge step leaves any already-past silver row untouched: the matching
group skips it, an insert only appends, and an update only rewrites rows of a
different (non-past) `class_id`. -/
theorem mergeStep_preserves_past (now : Int) (acc : List SilverRecord × Nat × Nat)
    (g : String × BronzeRecord) (c : String) (s : SilverRecord)
    (hfind : get_existing_silver_record acc.1 c = some s)
    (hpast : s.is_past = true) :
    get_existing_silver_record ((mergeStep now acc g).1) c = some s := by
  have hsc : s.class_id = c := by
    have := List.find?_some hfind
    exact of_decide_eq_true this
  unfold mergeStep
  cases hex : get_existing_silver_record acc.1 g.1 with
  | some existing =>
      by_cases hp : existing.is_past
      · simp only [hex, hp, if_true]
        exact hfind
      · simp only [hex, hp, if_false, Bool.false_eq_true]
        have hcg : c ≠ g.1 := by
          intro heq
          rw [heq] at hfind
          rw [hfind] at hex
          cases hex
          exact hp hpast
        unfold update_silver_record get_existing_silver_record
        rw [find?_map_preserve]
        · unfold get_existing_silver_record at hfind
          rw [hfind]
          have : ¬(s.class_id = g.1) := by
            rw [hsc]
            exact hcg
          simp [this]
        · intro x
          split
          · exact updatedWith_class_id _ _ _ _
          · rfl
  | none =>
      simp only [hex]
      unfold insert_silver_record get_existing_silver_record
      rw [List.find?_append]
      unfold get_existing_silver_record at hfind
      rw [hfind]
      rfl

theorem mergeFold_preserves_past (now : Int) (groups : List (String × BronzeRecord)) :
    ∀ (acc : List SilverRecord × Nat × Nat) (c : String) (s : SilverRecord),
      get_existing_silver_record acc.1 c = some s → s.is_past = true →
      get_existing_silver_record ((groups.foldl (mergeStep now) acc).1) c = some s := by
  induction groups with
  | nil => intro acc c s h _; exact h
  | cons g rest ih =>
      intro acc c s h hp
      simp only [List.foldl_cons]
      exact ih _ c s (mergeStep_preserves_past now acc g c s h hp) hp

/-- Claim C1: a canonical record whose stored `is_past` flag is true is left
completely unchanged (every field, as witnessed by the row itself being
returned verbatim by the primary-key lookup) by the whole merge loop of a
subsequent run — the merge step skips such a record entirely. -/
theorem claim_C1_past_immutable (now : Int) (groups : List (String × BronzeRecord))
    (table : List SilverRecord) (cid : String) (s : SilverRecord)
    (hfind : get_existing_silver_record table cid = some s)
    (hpast : s.is_past = true) :
    get_existing_silver_record
      ((groups.foldl (mergeStep now) (table, 0, 0)).1) cid = some s :=
  mergeFold_preserves_past now groups (table, 0, 0) cid s hfind hpast

/-- A past silver row and a run whose observations target the same identity
with fresh data (plus a second, new identity). -/
def sPast : SilverRecord :=
  { class_id := "koepel:000000000007", source := "koepel",
    class_name := some "Pilates", instructor := some "Ann",
    location := some "Gent", start_ts := some 500, end_ts := some 550,
    capacity := some 10, spots_available := some 0, status := some "full",
    url := none, first_seen_at := 100, last_updated_at := 400,
    last_scraped_at := 450, is_cancelled := false, is_past := true,
    source_run_id := some "run-0", source_snapshot_id := some 3, raw_data := [] }

theorem claim_C1_past_immutable_witness :
    get_existing_silver_record
      (([("koepel:000000000007", rC2), ("other:000000000001", rC4a)].foldl
          (mergeStep 1000) ([sPast], 0, 0)).1) "koepel:000000000007" = some sPast :=
  claim_C1_past_immutable 1000
    [("koepel:000000000007", rC2), ("other:000000000001", rC4a)]
    [sPast] "koepel:000000000007" sPast (by decide) rfl

/-! ### The cancellation sweep -/

/-- The sources represented among the group survivors are exactly the sources
of the run's observations: each survivor is itself an observation, and each
observation's identity is a group key whose survivor shares its source
(identities embed the source, `generate_class_id_source_inj`). -/
theorem sources_buildGroups (pyhash : String → Nat) (obs : List BronzeRecord)
    (src : String) :
    src ∈ (buildGroups pyhash obs).map (fun p => p.2.source) ↔
      src ∈ obs.map BronzeRecord.source := by
  constructor
  · intro h
    obtain ⟨p, hp, hsrc⟩ := List.mem_map.mp h
    rcases mem_fold_groups pyhash obs [] p hp with h2 | h2
    · cases h2
    · exact hsrc ▸ List.mem_map_of_mem _ h2.1
  · intro h
    obtain ⟨o, ho, hsrc⟩ := List.mem_map.mp h
    have hkey : generate_class_id pyhash o ∈ (buildGroups pyhash obs).map Prod.fst :=
      (mem_keys_fold pyhash obs [] (generate_class_id pyhash o)).mpr
        (Or.inr (List.mem_map_of_mem _ ho))
    obtain ⟨p, hp, hpk⟩ := List.mem_map.mp hkey
    rcases mem_fold_groups pyhash obs [] p hp with h2 | h2
    · cases h2
    · have hps : p.2.source = o.source :=
        generate_class_id_source_inj pyhash p.2 o (by rw [h2.2, hpk])
      exact List.mem_map.mpr ⟨p, hp, by rw [hps, hsrc]⟩

/-- The claim's characterization of the sweep condition, with the sources
taken from the run's raw observation set. -/
def sweepSpecB (pyhash : String → Nat) (obs : List BronzeRecord) (now : Int)
    (s : SilverRecord) : Bool :=
  (match s.start_ts with
   | some t => decide (now < t)
   | none => false)
  && !s.is_cancelled
  && decide (s.source ∈ obs.map BronzeRecord.source)
  && !(decide (s.class_id ∈ (buildGroups pyhash obs).map Prod.fst))

/-- Claim C3: after the merge, the sweep sets `cancelled` on exactly the rows
with a future start timestamp, `cancelled = false`, a source present among
the run's observations, and an identity outside the run's group keys; every
other row is returned unchanged.  In particular a row whose source has no
observation at all in the run is never marked cancelled. -/
theorem claim_C3_cancellation_sweep (pyhash : String → Nat)
    (obs : List BronzeRecord) (table : List SilverRecord) (now : Int) :
    (mark_cancelled_classes table (buildGroups pyhash obs) now).1 =
      table.map (fun s =>
        if sweepSpecB pyhash obs now s then
          { s with is_cancelled := true, last_updated_at := now }
        else s) ∧
    (∀ s ∈ table, s.source ∉ obs.map BronzeRecord.source →
      s ∈ (mark_cancelled_classes table (buildGroups pyhash obs) now).1) := by
  have hcond : ∀ s, shouldCancelB (buildGroups pyhash obs) now s =
      sweepSpecB pyhash obs now s := by
    intro s
    unfold shouldCancelB sweepSpecB
    rw [show decide (s.source ∈ (buildGroups pyhash obs).map (fun p => p.2.source))
        = decide (s.source ∈ obs.map BronzeRecord.source) from
      decide_eq_decide.mpr (sources_buildGroups pyhash obs s.source)]
  have hmap : (mark_cancelled_classes table (buildGroups pyhash obs) now).1 =
      table.map (fun s =>
        if sweepSpecB pyhash obs now s then
          { s with is_cancelled := true, last_updated_at := now }
        else s) := by
    unfold mark_cancelled_classes
    apply List.map_congr_left
    intro s _
    rw [hcond]
  refine ⟨hmap, ?_⟩
  intro s hs hsrc
  rw [hmap]
  have hb : sweepSpecB pyhash obs now s = false := by
    unfold sweepSpecB
    simp [hsrc]
  exact List.mem_map.mpr ⟨s, hs, by simp [hb]⟩

/-- A future, non-cancelled silver row of a source absent from the witness
run. -/
def sC3 : SilverRecord :=
  { sPast with class_id := "zzz:000000000004", source := "zzz",
               is_past := false, start_ts := some 2000, is_cancelled := false }

theorem claim_C3_cancellation_sweep_witness :
    sC3 ∈ (mark_cancelled_classes [sC3] (buildGroups (fun _ => 0) [rC4a]) 5).1 :=
  (claim_C3_cancellation_sweep (fun _ => 0) [rC4a] [sC3] 5).2 sC3
    (by simp) (by decide)

/-! ### The run counters -/

theorem mergeStep_counters (now : Int) (acc : List SilverRecord × Nat × Nat)
    (g : String × BronzeRecord) :
    (mergeStep now acc g).2.1 + (mergeStep now acc g).2.2 ≤
      acc.2.1 + acc.2.2 + 1 := by
  simp only [mergeStep]
  split
  · split
    · omega
    · dsimp only
      omega
  · dsimp only
    omega

theorem mergeFold_counters (now : Int) (groups : List (String × BronzeRecord)) :
    ∀ acc : List SilverRecord × Nat × Nat,
      (groups.foldl (mergeStep now) acc).2.1 +
        (groups.foldl (mergeStep now) acc).2.2 ≤
      acc.2.1 + acc.2.2 + groups.length := by
  induction groups with
  | nil => intro acc; simp
  | cons g rest ih =>
      intro acc
      simp only [List.foldl_cons, List.length_cons]
      have h1 := ih (mergeStep now acc g)
      have h2 := mergeStep_counters now acc g
      omega

/-- The number of groups is the number of distinct derived identities among
the grouped observations. -/
theorem buildGroups_length (pyhash : String → Nat) (l : List BronzeRecord) :
    (buildGroups pyhash l).length =
      ((l.map (generate_class_id pyhash)).toFinset).card := by
  have hnd : ((buildGroups pyhash l).map Prod.fst).Nodup :=
    keys_nodup_fold pyhash l [] (by simp)
  have hlen : (buildGroups pyhash l).length =
      ((buildGroups pyhash l).map Prod.fst).length := (List.length_map _ _).symm
  rw [hlen, ← List.toFinset_card_of_nodup hnd]
  congr 1
  apply Finset.ext
  intro c
  simp only [List.mem_toFinset]
  have h := mem_keys_fold pyhash l [] c
  simpa using h

/-- Claim C10: the statistics of one pass satisfy `processed` = number of
distinct derived identities in the input window and
`inserted + updated ≤ processed`; an empty window returns all-zero counters
and leaves the canonical table untouched. -/
theorem claim_C10_counters (pyhash : String → Nat) (bronze : List BronzeRecord)
    (ledger : List LogEntry) (table : List SilverRecord) (now : Int) :
    (process_incremental_update pyhash bronze ledger table now).2.processed =
      ((get_new_bronze_data bronze now
          (get_latest_aggregation_timestamp ledger)).map
        (generate_class_id pyhash)).toFinset.card ∧
    (process_incremental_update pyhash bronze ledger table now).2.inserted +
      (process_incremental_update pyhash bronze ledger table now).2.updated ≤
      (process_incremental_update pyhash bronze ledger table now).2.processed ∧
    (get_new_bronze_data bronze now (get_latest_aggregation_timestamp ledger) = [] →
      process_incremental_update pyhash bronze ledger table now =
        (table, ⟨0, 0, 0, 0⟩)) := by
  simp only [process_incremental_update]
  by_cases h : (get_new_bronze_data bronze now
      (get_latest_aggregation_timestamp ledger)).isEmpty
  · have hnil : get_new_bronze_data bronze now
        (get_latest_aggregation_timestamp ledger) = [] :=
      List.isEmpty_iff.mp h
    rw [if_pos h, hnil]
    refine ⟨by simp, by simp, fun _ => rfl⟩
  · rw [if_neg h]
    refine ⟨?_, ?_, ?_⟩
    · exact buildGroups_length pyhash _
    · have h2 := mergeFold_counters now
        (buildGroups pyhash (get_new_bronze_data bronze now
          (get_latest_aggregation_timestamp ledger))) (table, 0, 0)
      have h3 := buildGroups_length pyhash (get_new_bronze_data bronze now
          (get_latest_aggregation_timestamp ledger))
      simpa using h2
    · intro hnil
      rw [hnil] at h
      simp at h

theorem claim_C10_counters_witness :
    process_incremental_update (fun _ => 0) [] [] [] 0 = ([], ⟨0, 0, 0, 0⟩) :=
  (claim_C10_counters (fun _ => 0) [] [] [] 0).2.2 rfl

/-! ### Checkpoint and ledger -/

theorem maxOfList_eq_none (l : List Int) : maxOfList l = none ↔ l = [] := by
  cases l with
  | nil => simp [maxOfList]
  | cons x xs =>
      cases hm : maxOfList xs <;> simp [maxOfList, hm]

theorem maxOfList_spec (l : List Int) (t : Int) (h : maxOfList l = some t) :
    t ∈ l ∧ ∀ x ∈ l, x ≤ t := by
  induction l generalizing t with
  | nil => cases h
  | cons a xs ih =>
      cases hm : maxOfList xs with
      | none =>
          have hnil : xs = [] := (maxOfList_eq_none xs).mp hm
          subst hnil
          simp [maxOfList] at h
          subst h
          simp
      | some m =>
          have ht : max a m = t := by
            have h2 := h
            simp [maxOfList, hm] at h2
            exact h2
          subst ht
          obtain ⟨hmem, hle⟩ := ih m hm
          constructor
          · rcases le_total a m with hle2 | hle2
            · rw [max_eq_right hle2]
              exact List.mem_cons_of_mem _ hmem
            · rw [max_eq_left hle2]
              exact List.mem_cons_self _ _
          · intro x hx
            rcases List.mem_cons.mp hx with rfl | hx2
            · exact le_max_left _ _
            · exact le_trans (hle x hx2) (le_max_right _ _)

/-- Claim C6: when a completed ledger entry exists, the checkpoint is the
maximum completion timestamp among `completed` entries and the window is the
set of observations strictly newer than it; when none exists the window is
the last 24 hours (1440 minutes); and appending a `failed` entry never moves
the checkpoint. -/
theorem claim_C6_checkpoint (bronze : List BronzeRecord) (ledger : List LogEntry)
    (now : Int) :
    (∀ t, get_latest_aggregation_timestamp ledger = some t →
       ((∃ e ∈ ledger, e.status = "completed" ∧ e.completed_at = t) ∧
        (∀ e ∈ ledger, e.status = "completed" → e.completed_at ≤ t) ∧
        ∀ r, r ∈ get_new_bronze_data bronze now
               (get_latest_aggregation_timestamp ledger) ↔
             r ∈ bronze ∧ t < r.scraped_at)) ∧
    (get_latest_aggregation_timestamp ledger = none →
       ((∀ e ∈ ledger, e.status ≠ "completed") ∧
        ∀ r, r ∈ get_new_bronze_data bronze now
               (get_latest_aggregation_timestamp ledger) ↔
             r ∈ bronze ∧ now - 1440 < r.scraped_at)) ∧
    (∀ e : LogEntry, e.status = "failed" →
       get_latest_aggregation_timestamp (ledger ++ [e]) =
         get_latest_aggregation_timestamp ledger) := by
  refine ⟨?_, ?_, ?_⟩
  · intro t ht
    have ht2 : maxOfList ((ledger.filter (fun e => e.status = "completed")).map
        (fun e => e.completed_at)) = some t := ht
    have hspec := maxOfList_spec
      ((ledger.filter (fun e => e.status = "completed")).map
        (fun e => e.completed_at)) t ht2
    refine ⟨?_, ?_, ?_⟩
    · obtain ⟨e, he, het⟩ := List.mem_map.mp hspec.1
      have hef := List.mem_filter.mp he
      exact ⟨e, hef.1, of_decide_eq_true hef.2, het⟩
    · intro e he hst
      have hmem : e.completed_at ∈
          (ledger.filter (fun e => e.status = "completed")).map
            (fun e => e.completed_at) :=
        List.mem_map_of_mem _ (List.mem_filter.mpr ⟨he, decide_eq_true hst⟩)
      exact hspec.2 _ hmem
    · intro r
      rw [ht]
      simp [get_new_bronze_data, List.mem_filter]
  · intro hn
    have hn2 : maxOfList ((ledger.filter (fun e => e.status = "completed")).map
        (fun e => e.completed_at)) = none := hn
    have hnil : (ledger.filter (fun e => e.status = "completed")).map
        (fun e => e.completed_at) = [] := (maxOfList_eq_none _).mp hn2
    have hfil : ledger.filter (fun e => e.status = "completed") = [] :=
      List.map_eq_nil_iff.mp hnil
    refine ⟨?_, ?_⟩
    · intro e he hst
      have : e ∈ ledger.filter (fun e => e.status = "completed") :=
        List.mem_filter.mpr ⟨he, decide_eq_true hst⟩
      rw [hfil] at this
      cases this
    · intro r
      rw [hn]
      simp [get_new_bronze_data, List.mem_filter]
  · intro e he
    unfold get_latest_aggregation_timestamp
    rw [List.filter_append]
    have : List.filter (fun e => decide (e.status = "completed")) [e] = [] := by
      simp [he]
    rw [this, List.append_nil]

/-- A completed and a failed ledger entry for the checkpoint witness. -/
def le1 : LogEntry :=
  { run_id := "a", source := "all", completed_at := 100,
    records_processed := 1, records_inserted := 1, records_updated := 0,
    records_cancelled := 0, status := "completed", error_message := none }

def le2 : LogEntry :=
  { le1 with status := "failed", completed_at := 200,
             error_message := some "boom" }

theorem claim_C6_checkpoint_witness :
    (∀ r, r ∈ get_new_bronze_data [rC4a] 0
        (get_latest_aggregation_timestamp [le1]) ↔
      r ∈ [rC4a] ∧ 100 < r.scraped_at) ∧
    get_latest_aggregation_timestamp ([le1] ++ [le2]) =
      get_latest_aggregation_timestamp [le1] := by
  have h := claim_C6_checkpoint [rC4a] [le1] 0
  exact ⟨(h.1 100 (by decide)).2.2, h.2.2 le2 rfl⟩

/-- Claim C5 (code bug exhibit): on a failed run the error is re-raised, but
the attempted `failed` ledger entry is never written — `log_aggregation_run`
indexes the empty statistics dict and raises `KeyError`, which the bare
`except: pass` swallows, so the ledger is returned unchanged. -/
theorem claim_C5_failed_run_not_logged (ledger : List LogEntry)
    (run_id e : String) (now : Int) :
    run_aggregation_on_failure ledger run_id e now = (ledger, e) ∧
    log_aggregation_run ledger run_id "all" [] "failed" (some e) now =
      Except.error "KeyError" :=
  ⟨rfl, rfl⟩

end Piscraper
